import Mathlib

/-!
# Verification of the repo-summarizer file-selection and budgeting pipeline

A shallow embedding, in Lean 4, of the core functions of the repo-summarizer
service: the file exclusion/scoring heuristics (`src/utils/file_filter.py`),
the context assembly (`src/utils/context_builder.py`), the batched download
budgeter (`src/clients/github_client.py`) and the orchestrator with its
insert-if-absent result cache (`src/services/summarizer.py`).

Python strings are modelled as `List Char` (Python `len` is list length,
slicing is `take`/`drop`, `+` is `++`, `"\n".join` is modelled by `joinNl`).
Python `int` is modelled as `Int`.  `score_file` returns a Python float, but
every value it can produce is a small non-negative integer that floats
represent exactly, so it is modelled with `Int`.
-/

/-- Python slicing `s[:k]` for an arbitrary integer `k`: a non-negative `k`
takes the first `k` characters, a negative `k` counts from the end. -/
def pySlice (l : List Char) (k : Int) : List Char :=
  if 0 ≤ k then l.take k.toNat else l.take (l.length - (-k).toNat)

/-- Python `str.split(sep)` for a single-character separator: splitting the
empty string yields `[[]]`, and separators at the ends yield empty pieces,
exactly as in Python. -/
def pySplit (sep : Char) : List Char → List (List Char)
  | [] => [[]]
  | c :: rest =>
    let r := pySplit sep rest
    if c == sep then [] :: r
    else
      match r with
      | [] => [[c]]
      | h :: t => (c :: h) :: t

/-- Python's `needle in hay` substring test. -/
def hasSubstr (needle : List Char) : List Char → Bool
  | [] => needle.isEmpty
  | c :: rest => needle.isPrefixOf (c :: rest) || hasSubstr needle rest

/-- Python `"\n".join(sections)`. -/
def joinNl : List (List Char) → List Char
  | [] => []
  | [s] => s
  | s :: rest => s ++ '\n' :: joinNl rest

/-- `models/schemas.py` `RepoFile`: a scored repository file; `content` is
`none` until (and unless) the download budgeter fills it. -/
structure RepoFile where
  path : List Char
  size : Int := 0
  score : Int := 0
  content : Option (List Char) := none
deriving DecidableEq

/-! ## `src/utils/file_filter.py` -/

/-- `EXCLUDED_DIRS` from `file_filter.py`. -/
def EXCLUDED_DIRS : List (List Char) :=
  [ "node_modules".toList, "dist".toList, "build".toList, ".git".toList,
    "__pycache__".toList, ".tox".toList, ".mypy_cache".toList,
    ".pytest_cache".toList, "vendor".toList, "venv".toList, ".venv".toList,
    "env".toList, ".env".toList, "eggs".toList, ".eggs".toList,
    "bower_components".toList, ".next".toList, ".nuxt".toList,
    "coverage".toList, ".coverage".toList, "htmlcov".toList,
    "site-packages".toList ]

/-- `EXCLUDED_EXTENSIONS` from `file_filter.py`. -/
def EXCLUDED_EXTENSIONS : List (List Char) :=
  [ ".png".toList, ".jpg".toList, ".jpeg".toList, ".gif".toList,
    ".bmp".toList, ".ico".toList, ".svg".toList, ".webp".toList,
    ".mp3".toList, ".mp4".toList, ".wav".toList, ".avi".toList,
    ".mov".toList, ".mkv".toList,
    ".zip".toList, ".tar".toList, ".gz".toList, ".bz2".toList,
    ".7z".toList, ".rar".toList,
    ".exe".toList, ".dll".toList, ".so".toList, ".dylib".toList,
    ".o".toList, ".a".toList,
    ".woff".toList, ".woff2".toList, ".ttf".toList, ".eot".toList,
    ".otf".toList,
    ".pdf".toList, ".doc".toList, ".docx".toList, ".xls".toList,
    ".xlsx".toList,
    ".pyc".toList, ".pyo".toList, ".class".toList, ".jar".toList,
    ".lock".toList, ".min.js".toList, ".min.css".toList, ".map".toList,
    ".DS_Store".toList ]

/-- `EXCLUDED_FILENAMES` from `file_filter.py`. -/
def EXCLUDED_FILENAMES : List (List Char) :=
  [ "package-lock.json".toList, "yarn.lock".toList, "pnpm-lock.yaml".toList,
    "Pipfile.lock".toList, "poetry.lock".toList, "composer.lock".toList,
    "Gemfile.lock".toList, "Cargo.lock".toList,
    ".gitignore".toList, ".gitattributes".toList, ".editorconfig".toList ]

/-- `MAX_FILE_SIZE = 512_000` from `file_filter.py` (the comment in the source
reads "500 KB", i.e. 500 · 1024 = 512 000 bytes). -/
def MAX_FILE_SIZE : Int := 512000

/-- The extension part of `os.path.splitext(filename)` for a filename with no
path separator: leading dots never start an extension, otherwise the extension
begins at the last dot. -/
def splitextExt (filename : List Char) : List Char :=
  let stripped := filename.dropWhile (· == '.')
  if stripped.contains '.' then
    '.' :: (stripped.reverse.takeWhile (fun c => c != '.')).reverse
  else []

/-- `is_excluded(path, size)` from `file_filter.py`: the early-return chain is
modelled as a nested conditional. -/
def is_excluded (path : List Char) (size : Int) : Bool :=
  let parts := pySplit '/' path
  if parts.dropLast.any (fun part => EXCLUDED_DIRS.contains part) then true
  else
    let filename := parts.getLastD []
    if EXCLUDED_FILENAMES.contains filename then true
    else if EXCLUDED_EXTENSIONS.contains ((splitextExt filename).map Char.toLower) then true
    else if size > MAX_FILE_SIZE then true
    else false

/-- A character matched by the regex class `\w` (ASCII fragment, which covers
every filename the heuristics compare against). -/
def isWordChar (c : Char) : Bool := c.isAlphanum || c == '_'

/-- The regex `^readme(\.\w+)?$` with `re.IGNORECASE` from `file_filter.py`:
the filename is `readme`, optionally followed by a dot and one or more word
characters, case-insensitively. -/
def isReadmeName (filename : List Char) : Bool :=
  let l := filename.map Char.toLower
  l == "readme".toList ||
    ("readme.".toList.isPrefixOf l && !(l.drop 7).isEmpty &&
      (l.drop 7).all isWordChar)

/-- `_MANIFEST_NAMES` from `file_filter.py`. -/
def MANIFEST_NAMES : List (List Char) :=
  [ "pyproject.toml".toList, "setup.py".toList, "setup.cfg".toList,
    "package.json".toList, "requirements.txt".toList,
    "Cargo.toml".toList, "go.mod".toList, "Gemfile".toList,
    "pom.xml".toList, "build.gradle".toList, "Makefile".toList,
    "CMakeLists.txt".toList,
    "Dockerfile".toList, "docker-compose.yml".toList,
    "docker-compose.yaml".toList ]

/-- `_ENTRY_NAMES` from `file_filter.py`. -/
def ENTRY_NAMES : List (List Char) :=
  [ "main.py".toList, "app.py".toList, "index.js".toList, "index.ts".toList,
    "server.py".toList, "manage.py".toList, "cli.py".toList, "run.py".toList,
    "__main__.py".toList ]

/-- `_TEST_INDICATORS` from `file_filter.py`. -/
def TEST_INDICATORS : List (List Char) :=
  [ "test_".toList, "_test.".toList, "spec.".toList, ".test.".toList,
    ".spec.".toList, "tests/".toList, "test/".toList ]

/-- `score_file(path)` from `file_filter.py`: the ordered tier cascade, first
match wins; lower is better. -/
def score_file (path : List Char) : Int :=
  let filename := (pySplit '/' path).getLastD []
  let depth : Int := path.count '/'
  if depth == 0 && isReadmeName filename then 0
  else if MANIFEST_NAMES.contains filename then 10 + depth
  else if isReadmeName filename then 20 + depth
  else if ENTRY_NAMES.contains filename then 30 + depth
  else if depth ≤ 1 then 40
  else if TEST_INDICATORS.any (fun ind => hasSubstr ind (path.map Char.toLower)) then
    80 + depth
  else 60 + depth

/-! ## `src/utils/context_builder.py` -/

/-- The header line of a file's titled block: `f"### {f.path}\n"`. -/
def headerOf (f : RepoFile) : List Char :=
  "### ".toList ++ f.path ++ ['\n']

/-- The opening of the fenced code block in a built section. -/
def fenceOpen : List Char := "```\n".toList

/-- The closing of the fenced code block in a built section. -/
def fenceClose : List Char := "\n```\n".toList

/-- The truncation marker appended on per-file truncation. -/
def truncMarker : List Char := "\n... [truncated]".toList

/-- The tail of a partial section: truncation marker plus fence close. -/
def partialTail : List Char := "\n... [truncated]\n```\n".toList

/-- The per-file truncation step of `build_context`: contents longer than
`per_file_max` are cut to the first `per_file_max` characters and the
truncation marker is appended. -/
def truncContent (c : List Char) (perFileMax : Int) : List Char :=
  if (c.length : Int) > perFileMax then pySlice c perFileMax ++ truncMarker
  else c

/-- The full (possibly per-file-truncated) section a file contributes:
header plus fenced content. -/
def fullSectionOf (perFileMax : Int) (f : RepoFile) : List Char :=
  headerOf f ++ fenceOpen ++ truncContent (f.content.getD []) perFileMax ++ fenceClose

/-- The main loop of `build_context` from `context_builder.py`, returning the
list of accepted sections given the running `used` counter: files without
content are skipped; a full section is appended when it fits; otherwise, when
`remaining > len(header) + 50`, a single partial section holding the first
`remaining - len(header) - 20` characters of the content is appended and the
loop breaks; otherwise it breaks with nothing further. -/
def buildLoop (files : List RepoFile) (budget perFileMax : Int) (used : Int) :
    List (List Char) :=
  match files with
  | [] => []
  | f :: rest =>
    match f.content with
    | none => buildLoop rest budget perFileMax used
    | some c0 =>
      let content := truncContent c0 perFileMax
      let header := headerOf f
      let sec := header ++ fenceOpen ++ content ++ fenceClose
      if used + (sec.length : Int) > budget then
        if budget - used > (header.length : Int) + 50 then
          let available := budget - used - header.length - 20
          [header ++ fenceOpen ++ pySlice content available ++ partialTail]
        else []
      else sec :: buildLoop rest budget perFileMax (used + sec.length)

/-- `build_context(files, budget, per_file_max)` from `context_builder.py`:
the accepted sections joined with `"\n"`. -/
def build_context (files : List RepoFile) (budget perFileMax : Int) : List Char :=
  joinNl (buildLoop files budget perFileMax 0)

/-! ## `src/clients/github_client.py`, `download_files` -/

/-- Splitting the candidate list into the batches
`files[0:10], files[10:20], ...` that `range(0, len(files), batch_size)`
produces (auxiliary accumulator form; `room` is the space left in the
current batch). -/
def toBatchesAux : List α → List α → Nat → List (List α)
  | [], acc, _ => if acc.isEmpty then [] else [acc.reverse]
  | a :: rest, acc, 0 => acc.reverse :: toBatchesAux rest [a] 9
  | a :: rest, acc, r + 1 => toBatchesAux rest (a :: acc) r

/-- The batches of size 10 (`batch_size = 10` in `download_files`). -/
def toBatches (l : List α) : List (List α) := toBatchesAux l [] 10

/-- The outcome of `_fetch_raw` for one file, as joined by `asyncio.gather`:
`some content` on success; `none` when the fetch raised or returned `None`
(both are skipped identically by `download_files`). -/
abbrev FetchOutcome := Option (List Char)

/-- The inner loop of `download_files` over one batch: failed fetches are
dropped; a successful fetch sets `content`, is appended to the result and adds
`min(len(content), per_file_max)` to `used`; after each append, if
`used >= budget` the loop breaks. Returns the appended files and final
`used`. -/
def dlBatch (batch : List (RepoFile × FetchOutcome)) (budget perFileMax : Int)
    (used : Int) : List RepoFile × Int :=
  match batch with
  | [] => ([], used)
  | (_, none) :: rest => dlBatch rest budget perFileMax used
  | (f, some c) :: rest =>
    let f' : RepoFile := { f with content := some c }
    let used' := used + min (c.length : Int) perFileMax
    if used' ≥ budget then ([f'], used')
    else
      let r := dlBatch rest budget perFileMax used'
      (f' :: r.1, r.2)

/-- The outer loop of `download_files`: before each batch, stop when
`used >= budget`; otherwise process the batch and continue. -/
def dlBatches (batches : List (List (RepoFile × FetchOutcome)))
    (budget perFileMax : Int) (used : Int) : List RepoFile × Int :=
  match batches with
  | [] => ([], used)
  | b :: rest =>
    if used ≥ budget then ([], used)
    else
      let r := dlBatch b budget perFileMax used
      let r2 := dlBatches rest budget perFileMax r.2
      (r.1 ++ r2.1, r2.2)

/-- `download_files(owner, repo, files, budget, per_file_max)` from
`github_client.py`, with each candidate paired with its fetch outcome (the
network is external input to the model). -/
def download_files (files : List (RepoFile × FetchOutcome))
    (budget perFileMax : Int) : List RepoFile :=
  (dlBatches (toBatches files) budget perFileMax 0).1

/-- The successful fetches of the candidate list, each with its content set,
in input order. -/
def successesOf (files : List (RepoFile × FetchOutcome)) : List RepoFile :=
  files.filterMap (fun fc =>
    match fc.2 with
    | none => none
    | some c => some { fc.1 with content := some c })

/-- The total anticipated contribution `min(len(content), per_file_max)` of
every successful fetch in the list. -/
def sumContrib (files : List (RepoFile × FetchOutcome)) (perFileMax : Int) : Int :=
  (files.map (fun fc =>
    match fc.2 with
    | none => 0
    | some c => min (c.length : Int) perFileMax)).sum

/-- The total contribution `min(len(content), per_file_max)` of the files of a
downloaded list (files without content contribute 0). -/
def usedTotal (files : List RepoFile) (perFileMax : Int) : Int :=
  (files.map (fun f =>
    match f.content with
    | none => 0
    | some c => min (c.length : Int) perFileMax)).sum

/-! ## `src/services/summarizer.py` -/

/-- `models/schemas.py` `SummarizeResponse`; the Python field `structure` is
called `struct` here because `structure` is a Lean keyword. -/
structure SummarizeResponse where
  summary : String
  technologies : List String
  struct : String
deriving DecidableEq

/-- The module-level cache of `summarizer.py`: `_cache` (a dict, which in
Python preserves insertion order) together with `_cache_order` are modelled as
one association list in insertion order — `_cache_set` appends to the back of
both and evicts from the front of both, so the dict's key order and
`_cache_order` always coincide. -/
abbrev Cache := List (String × SummarizeResponse)

/-- `_cache_get(key)` from `summarizer.py`: a pure lookup that never modifies
the cache or its order. -/
def cacheGet (key : String) (c : Cache) : Option SummarizeResponse :=
  c.lookup key

/-- `_cache_set(key, value, max_size)` from `summarizer.py`: a present key is
left untouched; otherwise, when `len(_cache) >= max_size`, the oldest-inserted
entry is evicted before appending.  `none` models the `IndexError` that
`_cache_order.pop(0)` raises when the eviction branch runs on an empty cache
(only reachable when `max_size <= 0`); the caches are unchanged in that
case. -/
def cacheSet (key : String) (v : SummarizeResponse) (maxSize : Int)
    (c : Cache) : Option Cache :=
  if (cacheGet key c).isSome then some c
  else if (c.length : Int) ≥ maxSize then
    match c with
    | [] => none
    | _ :: rest => some (rest ++ [(key, v)])
  else some (c ++ [(key, v)])

/-- `clients/llm_client.py` `_parse_json` output restricted to the three keys
`SummarizerService.summarize` reads: a parsed JSON object where each of
`summary`, `technologies`, `struct` ("structure" in the source) is present or
absent (`raw.get(k, default)` reads them). -/
structure LLMRaw where
  summary : Option String := none
  technologies : Option (List String) := none
  struct : Option String := none
deriving DecidableEq

/-- The fallible collaborators of `SummarizerService.summarize`, each stage
modelled as `Except`: `GitHubClient.fetch_repo_files`,
`GitHubClient.download_files` (whose per-file failures are absorbed but which
can itself raise, e.g. from the HTTP client), and `LLMClient.summarize`
(the HTTP call together with `_parse_json`; an `.error` covers both a
non-success status and unparseable JSON). -/
structure PipelineStages where
  fetchRepoFiles : Except String (List RepoFile)
  downloadFilesResult : List RepoFile → Except String (List RepoFile)
  llmSummarize : List Char → Except String LLMRaw

/-- `SummarizerService.summarize(owner, repo)` from `summarizer.py`, with the
module-level cache passed and returned explicitly: on a cache hit the cached
response is returned unchanged; otherwise the stages run in sequence, any
stage error propagates with the cache untouched, and on success the response
built with `raw.get("summary", "")`, `raw.get("technologies", [])`,
`raw.get("structure", "")` is cached via `cacheSet` and returned. -/
def summarizeService (st : PipelineStages) (budget perFileMax maxSize : Int)
    (owner repo : String) (cache : Cache) :
    Except String SummarizeResponse × Cache :=
  let key := owner ++ "/" ++ repo
  match cacheGet key cache with
  | some r => (Except.ok r, cache)
  | none =>
    match st.fetchRepoFiles with
    | Except.error e => (Except.error e, cache)
    | Except.ok files =>
      match st.downloadFilesResult files with
      | Except.error e => (Except.error e, cache)
      | Except.ok files2 =>
        let context := build_context files2 budget perFileMax
        match st.llmSummarize context with
        | Except.error e => (Except.error e, cache)
        | Except.ok raw =>
          let response : SummarizeResponse :=
            { summary := raw.summary.getD ""
              technologies := raw.technologies.getD []
              struct := raw.struct.getD "" }
          match cacheSet key response maxSize cache with
          | none => (Except.error "IndexError", cache)
          | some c' => (Except.ok response, c')

/-! ## Claims about the file filter -/

/-- C3 counterexample: the claim says any size strictly above 500 000 bytes is
excluded regardless of path, but `a.py` at 500 001 bytes is not excluded
(the code's threshold is `MAX_FILE_SIZE = 512_000`). -/
theorem C3_counterexample :
    (500000 : Int) < 500001 ∧ is_excluded "a.py".toList 500001 = false := by
  exact ⟨by decide, by decide⟩

/-- C3 (amended): for every path and every size strictly greater than the
code's maximum threshold of 512 000 bytes, `is_excluded` returns true
regardless of the path. -/
theorem C3_is_excluded_above_max_size (path : List Char) (size : Int)
    (h : MAX_FILE_SIZE < size) : is_excluded path size = true := by
  unfold is_excluded
  simp only [gt_iff_lt, h, if_true]
  split_ifs <;> rfl

/-- C3 witness: the amended theorem applied at `a.py`, 512 001 bytes. -/
theorem C3_is_excluded_above_max_size_witness :
    MAX_FILE_SIZE < (512001 : Int) ∧ is_excluded "a.py".toList 512001 = true :=
  ⟨by decide, C3_is_excluded_above_max_size "a.py".toList 512001 (by decide)⟩

/-- C6 counterexample: the claim gives `score_file("a/b/c/tests/foo.py") = 83`,
but the path contains four separators, so the code returns `80 + 4 = 84`. -/
theorem C6_counterexample : score_file "a/b/c/tests/foo.py".toList ≠ 83 := by
  decide

/-- C6 (amended): the tier values of the spec's examples, with the deep test
file corrected to its actual depth of 4: `score_file("README.md") = 0`,
`score_file("src/README.md") = 21`, `score_file("package.json") = 10`,
`score_file("a/b/main.py") = 32`, and `score_file("a/b/c/tests/foo.py") = 84`
(the test tier wins over the generic deep-file tier at equal depth). -/
theorem C6_score_file_examples :
    score_file "README.md".toList = 0 ∧
    score_file "src/README.md".toList = 21 ∧
    score_file "package.json".toList = 10 ∧
    score_file "a/b/main.py".toList = 32 ∧
    score_file "a/b/c/tests/foo.py".toList = 84 := by
  refine ⟨by decide, by decide, by decide, by decide, by decide⟩

/-- C8: the code lists `.min.js` and `.min.css` in `EXCLUDED_EXTENSIONS`, yet
`is_excluded` never excludes such files, because `os.path.splitext` returns
only the last extension (`.js`, `.css`): the two set entries are unreachable.
The code contradicts its own exclusion table. -/
theorem C8_min_js_not_excluded :
    EXCLUDED_EXTENSIONS.contains ".min.js".toList = true ∧
    EXCLUDED_EXTENSIONS.contains ".min.css".toList = true ∧
    splitextExt "app.min.js".toList = ".js".toList ∧
    is_excluded "app.min.js".toList 0 = false ∧
    is_excluded "style.min.css".toList 0 = false := by
  refine ⟨by decide, by decide, by decide, by decide, by decide⟩

/-! ## Claims about the context builder -/

/-- The sum of the full-section lengths of a file list (each section already
per-file-truncated). -/
def sumSectionLens (files : List RepoFile) (perFileMax : Int) : Int :=
  (files.map (fun f => ((fullSectionOf perFileMax f).length : Int))).sum

theorem sumSectionLens_nonneg (files : List RepoFile) (p : Int) :
    0 ≤ sumSectionLens files p := by
  apply List.sum_nonneg
  intro x hx
  simp only [List.mem_map] at hx
  obtain ⟨f, _, rfl⟩ := hx
  positivity

/-- When the full sections of all remaining files fit in the remaining budget
(equality included), the loop accepts every one of them in full. -/
theorem buildLoop_all_fit (p budget : Int) :
    ∀ (files : List RepoFile) (used : Int),
      (∀ f ∈ files, f.content.isSome) →
      used + sumSectionLens files p ≤ budget →
      buildLoop files budget p used = files.map (fullSectionOf p) := by
  intro files
  induction files with
  | nil => intro used _ _; rfl
  | cons f rest ih =>
    intro used hall hle
    obtain ⟨c0, hc⟩ := Option.isSome_iff_exists.mp (hall f (by simp))
    have hsum : sumSectionLens (f :: rest) p =
        ((fullSectionOf p f).length : Int) + sumSectionLens rest p := by
      simp [sumSectionLens]
    have hsec : fullSectionOf p f =
        headerOf f ++ fenceOpen ++ truncContent c0 p ++ fenceClose := by
      simp [fullSectionOf, hc]
    have hnn := sumSectionLens_nonneg rest p
    have hfit : ¬ (used + (((headerOf f ++ fenceOpen ++ truncContent c0 p ++ fenceClose).length : Int)) > budget) := by
      rw [← hsec]
      omega
    simp only [buildLoop, hc]
    rw [if_neg hfit]
    have := ih (used + ((headerOf f ++ fenceOpen ++ truncContent c0 p ++ fenceClose).length : Int))
      (fun g hg => hall g (by simp [hg]))
      (by rw [← hsec]; omega)
    rw [← hsec] at this
    simp only [List.map_cons, ← hsec]
    rw [this]

/-- C7: when every file has content and the combined full-section lengths
exactly equal the budget, `build_context` includes every section in full (the
output is precisely the full sections joined by `"\n"`; in particular no
partial section appears). -/
theorem C7_build_context_exact_fit (files : List RepoFile) (budget p : Int)
    (hall : ∀ f ∈ files, f.content.isSome)
    (hsum : sumSectionLens files p = budget) :
    build_context files budget p = joinNl (files.map (fullSectionOf p)) := by
  unfold build_context
  rw [buildLoop_all_fit p budget files 0 hall (by omega)]

/-- C7 witness: two one-character files whose sections are 16 characters each,
with the budget exactly 32. -/
theorem C7_build_context_exact_fit_witness :
    (∀ f ∈ [({ path := "a".toList, content := some "x".toList } : RepoFile),
            { path := "b".toList, content := some "x".toList }], f.content.isSome) ∧
    sumSectionLens [({ path := "a".toList, content := some "x".toList } : RepoFile),
            { path := "b".toList, content := some "x".toList }] 100 = 32 ∧
    build_context [({ path := "a".toList, content := some "x".toList } : RepoFile),
            { path := "b".toList, content := some "x".toList }] 32 100 =
      joinNl ([({ path := "a".toList, content := some "x".toList } : RepoFile),
            { path := "b".toList, content := some "x".toList }].map (fullSectionOf 100)) :=
  ⟨by decide, by decide,
    C7_build_context_exact_fit _ 32 100 (by decide) (by decide)⟩

/-- C4: whenever the loop reaches a file whose full section would exceed the
remaining budget while the remaining space is strictly greater than the header
length plus 50, it emits exactly one final partial section — the header, the
first `remaining - header_length - 20` characters of the per-file-truncated
content, and the truncation marker — and stops entirely: the result does not
depend on the remaining files. -/
theorem C4_build_context_partial_section (f : RepoFile) (rest : List RepoFile)
    (budget perFileMax used : Int) (c0 : List Char)
    (hc : f.content = some c0)
    (hover : used + (((headerOf f ++ fenceOpen ++ truncContent c0 perFileMax ++ fenceClose).length : Int)) > budget)
    (hfit : budget - used > ((headerOf f).length : Int) + 50) :
    buildLoop (f :: rest) budget perFileMax used =
      [headerOf f ++ fenceOpen ++
        pySlice (truncContent c0 perFileMax)
          (budget - used - (headerOf f).length - 20) ++ partialTail] := by
  simp only [buildLoop, hc]
  rw [if_pos hover, if_pos hfit]

set_option maxRecDepth 8000 in
/-- C4 witness: a 60-character file against a budget of 60 (header length 6),
followed by a file that would have fit; the partial section alone is emitted. -/
theorem C4_build_context_partial_section_witness :
    buildLoop
      [{ path := "a".toList, content := some (List.replicate 60 'x') },
       { path := "b".toList, content := some "y".toList }] 60 300 0 =
      [headerOf { path := "a".toList, content := some (List.replicate 60 'x') } ++
        fenceOpen ++
        pySlice (truncContent (List.replicate 60 'x') 300)
          (60 - 0 - (headerOf { path := "a".toList, content := some (List.replicate 60 'x') }).length - 20) ++
        partialTail] :=
  C4_build_context_partial_section _ _ 60 300 0 _ rfl (by decide) (by decide)

/-- The sum of the lengths of the accepted sections, as counted by the loop's
`used` counter (which ignores the `"\n"` separators that `join` inserts). -/
def sumLens (sections : List (List Char)) : Int :=
  (sections.map (fun s => (s.length : Int))).sum

theorem pySlice_length_le (l : List Char) (k : Int) (hk : 0 ≤ k) :
    ((pySlice l k).length : Int) ≤ k := by
  unfold pySlice
  rw [if_pos hk]
  have := List.length_take k.toNat l
  omega

/-- The accepted sections total at most `budget - used + 5` characters: full
sections consume exactly their length from the budget, and a final partial
section can exceed the remaining space by up to 5 characters (its fixed
overhead beyond the header is 4 + 21 = 25 characters while it reserves only
`header + 20`). -/
theorem buildLoop_sum_le (budget p : Int) :
    ∀ (files : List RepoFile) (used : Int), used ≤ budget →
      sumLens (buildLoop files budget p used) ≤ budget - used + 5 := by
  intro files
  induction files with
  | nil => intro used h; simp [buildLoop, sumLens]; omega
  | cons f rest ih =>
    intro used h
    cases hc : f.content with
    | none =>
      have := ih used h
      simpa [buildLoop, hc] using this
    | some c0 =>
      simp only [buildLoop, hc]
      by_cases hov : used + (((headerOf f ++ fenceOpen ++ truncContent c0 p ++ fenceClose).length : Int)) > budget
      · rw [if_pos hov]
        by_cases hfit : budget - used > ((headerOf f).length : Int) + 50
        · rw [if_pos hfit]
          have hsl := pySlice_length_le (truncContent c0 p)
            (budget - used - (headerOf f).length - 20) (by omega)
          have h4 : (fenceOpen.length : Int) = 4 := by decide
          have h21 : (partialTail.length : Int) = 21 := by decide
          simp only [sumLens, List.map_cons, List.map_nil, List.sum_cons,
            List.sum_nil, List.length_append]
          push_cast
          omega
        · rw [if_neg hfit]
          simp [sumLens]
          omega
      · rw [if_neg hov]
        have ihh := ih (used + ((headerOf f ++ fenceOpen ++ truncContent c0 p ++ fenceClose).length : Int)) (by omega)
        simp only [sumLens, List.map_cons, List.sum_cons] at ihh ⊢
        omega

/-- `"\n".join` adds exactly one separator character between adjacent
sections. -/
theorem joinNl_length (l : List (List Char)) (h : l ≠ []) :
    ((joinNl l).length : Int) = sumLens l + l.length - 1 := by
  induction l with
  | nil => exact absurd rfl h
  | cons s rest ih =>
    cases rest with
    | nil => simp [joinNl, sumLens]
    | cons t ts =>
      have := ih (by simp)
      simp only [joinNl, sumLens, List.map_cons, List.sum_cons,
        List.length_append, List.length_cons] at this ⊢
      push_cast at this ⊢
      omega

/-- The loop emits at most one section per input file. -/
theorem buildLoop_count_le (budget p : Int) :
    ∀ (files : List RepoFile) (used : Int),
      (buildLoop files budget p used).length ≤ files.length := by
  intro files
  induction files with
  | nil => intro used; simp [buildLoop]
  | cons f rest ih =>
    intro used
    cases hc : f.content with
    | none =>
      have := ih used
      simp only [buildLoop, hc]
      simpa using Nat.le_succ_of_le this
    | some c0 =>
      simp only [buildLoop, hc]
      by_cases hov : used + (((headerOf f ++ fenceOpen ++ truncContent c0 p ++ fenceClose).length : Int)) > budget
      · rw [if_pos hov]
        by_cases hfit : budget - used > ((headerOf f).length : Int) + 50
        · rw [if_pos hfit]; simp
        · rw [if_neg hfit]; simp
      · rw [if_neg hov]
        have := ih (used + ((headerOf f ++ fenceOpen ++ truncContent c0 p ++ fenceClose).length : Int))
        simpa using this

/-- C1 counterexample: the claim bounds the output length by the budget, but
`used` does not count the `"\n"` separators `join` inserts: two 16-character
sections fit a budget of 32 exactly, yet the joined output has 33
characters. -/
theorem C1_counterexample :
    (0 : Int) ≤ 32 ∧ (0 : Int) < 100 ∧
    ((build_context
        [({ path := "a".toList, content := some "x".toList } : RepoFile),
         { path := "b".toList, content := some "x".toList }] 32 100).length : Int) = 33 := by
  refine ⟨by decide, by decide, by decide⟩

/-- C1 (amended): for every file list, budget ≥ 0 and per-file cap, the output
of `build_context` has length at most `budget + (number of files) + 4`: the
`used` counter never exceeds the budget, but the output additionally contains
one `"\n"` separator per extra section and a final partial section may exceed
the remaining space by up to 5 characters. -/
theorem C1_build_context_length_bound (files : List RepoFile)
    (budget p : Int) (hb : 0 ≤ budget) :
    ((build_context files budget p).length : Int) ≤ budget + files.length + 4 := by
  unfold build_context
  rcases hsec : buildLoop files budget p 0 with _ | ⟨s, rest⟩
  · simp [joinNl]
    positivity
  · have hne : buildLoop files budget p 0 ≠ [] := by rw [hsec]; simp
    have hj := joinNl_length _ hne
    have hs := buildLoop_sum_le budget p files 0 hb
    have hl := buildLoop_count_le budget p files 0
    rw [hsec] at hj hs hl
    omega

/-- C1 witness: the amended bound applied to the two-file, budget-32 example
(33 ≤ 32 + 2 + 4). -/
theorem C1_build_context_length_bound_witness :
    (0 : Int) ≤ 32 ∧
    ((build_context
        [({ path := "a".toList, content := some "x".toList } : RepoFile),
         { path := "b".toList, content := some "x".toList }] 32 100).length : Int) ≤ 32 + 2 + 4 :=
  ⟨by decide,
    C1_build_context_length_bound
      [{ path := "a".toList, content := some "x".toList },
       { path := "b".toList, content := some "x".toList }] 32 100 (by decide)⟩

/-! ## Claims about the download budgeter -/

theorem toBatchesAux_flatten (l : List α) :
    ∀ (acc : List α) (r : Nat), (toBatchesAux l acc r).flatten = acc.reverse ++ l := by
  induction l with
  | nil =>
    intro acc r
    by_cases h : acc.isEmpty
    · simp [toBatchesAux, h, List.isEmpty_iff.mp h]
    · simp [toBatchesAux, h]
  | cons a rest ih =>
    intro acc r
    cases r with
    | zero => simp [toBatchesAux, ih]
    | succ r' => simp [toBatchesAux, ih]

theorem toBatches_flatten (l : List α) : (toBatches l).flatten = l := by
  simp [toBatches, toBatchesAux_flatten]

theorem sumContrib_nonneg (files : List (RepoFile × FetchOutcome)) (p : Int)
    (hp : 0 ≤ p) : 0 ≤ sumContrib files p := by
  apply List.sum_nonneg
  intro x hx
  simp only [List.mem_map] at hx
  obtain ⟨fc, _, rfl⟩ := hx
  cases fc.2 with
  | none => simp
  | some c => simp; positivity

theorem sumContrib_append (a b : List (RepoFile × FetchOutcome)) (p : Int) :
    sumContrib (a ++ b) p = sumContrib a p + sumContrib b p := by
  simp [sumContrib]

theorem successesOf_append (a b : List (RepoFile × FetchOutcome)) :
    successesOf (a ++ b) = successesOf a ++ successesOf b := by
  simp [successesOf]

theorem dlBatch_complete (budget p : Int) (hp : 0 ≤ p) :
    ∀ (batch : List (RepoFile × FetchOutcome)) (used : Int),
      used + sumContrib batch p < budget →
      dlBatch batch budget p used = (successesOf batch, used + sumContrib batch p) := by
  intro batch
  induction batch with
  | nil => intro used h; simp [dlBatch, successesOf, sumContrib]
  | cons fc rest ih =>
    intro used h
    rcases fc with ⟨f, oc⟩
    cases oc with
    | none =>
      have hs : sumContrib ((f, none) :: rest) p = sumContrib rest p := by
        simp [sumContrib]
      rw [hs] at h
      simp only [dlBatch]
      rw [ih used h]
      simp [successesOf, hs]
    | some c =>
      have hs : sumContrib ((f, some c) :: rest) p =
          min (c.length : Int) p + sumContrib rest p := by
        simp [sumContrib]
      have hnn := sumContrib_nonneg rest p hp
      have hbr : ¬ (used + min (c.length : Int) p ≥ budget) := by
        rw [hs] at h; omega
      simp only [dlBatch]
      rw [if_neg hbr]
      rw [ih (used + min (c.length : Int) p) (by rw [hs] at h; omega)]
      simp [successesOf, hs]
      ring

theorem dlBatches_stop (budget p used : Int)
    (bs : List (List (RepoFile × FetchOutcome))) (h : used ≥ budget) :
    dlBatches bs budget p used = ([], used) := by
  cases bs with
  | nil => rfl
  | cons b rest => simp only [dlBatches]; rw [if_pos h]

theorem dlBatches_complete (budget p : Int) (hp : 0 ≤ p) :
    ∀ (bs : List (List (RepoFile × FetchOutcome))) (used : Int),
      used + sumContrib bs.flatten p < budget →
      dlBatches bs budget p used =
        (successesOf bs.flatten, used + sumContrib bs.flatten p) := by
  intro bs
  induction bs with
  | nil => intro used h; simp [dlBatches, successesOf, sumContrib]
  | cons b rest ih =>
    intro used h
    have hflat : sumContrib ((b :: rest).flatten) p =
        sumContrib b p + sumContrib rest.flatten p := by
      simp [sumContrib_append]
    have hnb := sumContrib_nonneg b p hp
    have hnr := sumContrib_nonneg rest.flatten p hp
    have hlt : used < budget := by rw [hflat] at h; omega
    simp only [dlBatches]
    rw [if_neg (by omega)]
    rw [dlBatch_complete budget p hp b used (by rw [hflat] at h; omega)]
    rw [ih (used + sumContrib b p) (by rw [hflat] at h; omega)]
    simp only [List.flatten_cons, successesOf_append, sumContrib_append,
      Prod.mk.injEq]
    refine ⟨by trivial, by ring⟩

theorem dlBatch_usedTotal (budget p : Int) :
    ∀ (batch : List (RepoFile × FetchOutcome)) (used : Int),
      (dlBatch batch budget p used).2 =
        used + usedTotal (dlBatch batch budget p used).1 p := by
  intro batch
  induction batch with
  | nil => intro used; simp [dlBatch, usedTotal]
  | cons fc rest ih =>
    intro used
    rcases fc with ⟨f, oc⟩
    cases oc with
    | none => simp only [dlBatch]; exact ih used
    | some c =>
      simp only [dlBatch]
      by_cases hbr : used + min (c.length : Int) p ≥ budget
      · rw [if_pos hbr]; simp [usedTotal]
      · rw [if_neg hbr]
        have := ih (used + min (c.length : Int) p)
        simp only [usedTotal, List.map_cons, List.sum_cons] at this ⊢
        omega

theorem dlBatch_bound (budget p : Int) (hp : 0 ≤ p) :
    ∀ (batch : List (RepoFile × FetchOutcome)) (used : Int), used < budget →
      used ≤ (dlBatch batch budget p used).2 ∧
      (dlBatch batch budget p used).2 < budget + p := by
  intro batch
  induction batch with
  | nil => intro used h; simp [dlBatch]; omega
  | cons fc rest ih =>
    intro used h
    rcases fc with ⟨f, oc⟩
    cases oc with
    | none => simp only [dlBatch]; exact ih used h
    | some c =>
      have hm1 : 0 ≤ min (c.length : Int) p := by positivity
      have hm2 : min (c.length : Int) p ≤ p := min_le_right _ _
      simp only [dlBatch]
      by_cases hbr : used + min (c.length : Int) p ≥ budget
      · rw [if_pos hbr]; constructor <;> simp <;> omega
      · rw [if_neg hbr]
        have := ih (used + min (c.length : Int) p) (by omega)
        constructor
        · exact le_trans (by omega) this.1
        · exact this.2

theorem dlBatches_bound (budget p : Int) (hp : 0 ≤ p) :
    ∀ (bs : List (List (RepoFile × FetchOutcome))) (used : Int), used < budget →
      used ≤ (dlBatches bs budget p used).2 ∧
      (dlBatches bs budget p used).2 < budget + p := by
  intro bs
  induction bs with
  | nil => intro used h; simp [dlBatches]; omega
  | cons b rest ih =>
    intro used h
    simp only [dlBatches]
    rw [if_neg (by omega)]
    have hb := dlBatch_bound budget p hp b used h
    by_cases hu : (dlBatch b budget p used).2 ≥ budget
    · rw [dlBatches_stop budget p _ rest hu]
      simp
      omega
    · have := ih (dlBatch b budget p used).2 (by omega)
      simp only
      constructor
      · exact le_trans hb.1 this.1
      · exact this.2

theorem dlBatches_usedTotal (budget p : Int) :
    ∀ (bs : List (List (RepoFile × FetchOutcome))) (used : Int),
      (dlBatches bs budget p used).2 =
        used + usedTotal (dlBatches bs budget p used).1 p := by
  intro bs
  induction bs with
  | nil => intro used; simp [dlBatches, usedTotal]
  | cons b rest ih =>
    intro used
    simp only [dlBatches]
    by_cases hu : used ≥ budget
    · rw [if_pos hu]; simp [usedTotal]
    · rw [if_neg hu]
      have h1 := dlBatch_usedTotal budget p b used
      have h2 := ih (dlBatch b budget p used).2
      simp only [usedTotal, List.map_append, List.sum_append] at h1 h2 ⊢
      omega

/-- C2 counterexample: with a budget of 1, both files of the first batch are
fetched successfully, but the `used >= budget` check inside the batch loop
drops the second one: the claim that every successful fetch of a started batch
appears in the returned list is false. -/
theorem C2_counterexample :
    (download_files
        [(({ path := "a".toList } : RepoFile), some "xx".toList),
         (({ path := "b".toList } : RepoFile), some "yy".toList)] 1 10).length = 1 ∧
    ({ path := "b".toList, content := some "yy".toList } : RepoFile) ∉
      download_files
        [(({ path := "a".toList } : RepoFile), some "xx".toList),
         (({ path := "b".toList } : RepoFile), some "yy".toList)] 1 10 := by
  refine ⟨by decide, by decide⟩

/-- C2 (amended): the stopping check `used >= totalBudget` is applied both
between batches and after each successfully fetched file within a batch, so
the budget is overshot by at most one file's contribution
`min(length(content), perFileMax)` — not 10 files' worth — and when the total
anticipated contribution of all successful fetches is strictly below the
budget, every successfully fetched file appears in the returned list, in
input order. -/
theorem C2_download_files_amended (files : List (RepoFile × FetchOutcome))
    (budget p : Int) (hp : 0 ≤ p) :
    usedTotal (download_files files budget p) p ≤ max budget 0 + p ∧
    (sumContrib files p < budget →
      download_files files budget p = successesOf files) := by
  constructor
  · unfold download_files
    by_cases hb : budget ≤ 0
    · rw [dlBatches_stop budget p 0 _ (by omega)]
      have hm := le_max_right budget (0 : Int)
      simp [usedTotal]
      omega
    · have h1 := dlBatches_bound budget p hp (toBatches files) 0 (by omega)
      have h2 := dlBatches_usedTotal budget p (toBatches files) 0
      have hm := le_max_left budget (0 : Int)
      omega
  · intro hs
    unfold download_files
    have hflat : sumContrib (toBatches files).flatten p = sumContrib files p := by
      rw [toBatches_flatten]
    rw [dlBatches_complete budget p hp (toBatches files) 0 (by rw [hflat]; omega)]
    simp [toBatches_flatten]

/-- C2 witness: two 2-character successes against budget 100 and per-file cap
10; both conjuncts of the amended theorem are instantiated. -/
theorem C2_download_files_amended_witness :
    (0 : Int) ≤ 10 ∧
    sumContrib
        [(({ path := "a".toList } : RepoFile), some "xx".toList),
         (({ path := "b".toList } : RepoFile), some "yy".toList)] 10 < 100 ∧
    usedTotal
      (download_files
        [(({ path := "a".toList } : RepoFile), some "xx".toList),
         (({ path := "b".toList } : RepoFile), some "yy".toList)] 100 10) 10 ≤
      max 100 0 + 10 ∧
    download_files
        [(({ path := "a".toList } : RepoFile), some "xx".toList),
         (({ path := "b".toList } : RepoFile), some "yy".toList)] 100 10 =
      successesOf
        [(({ path := "a".toList } : RepoFile), some "xx".toList),
         (({ path := "b".toList } : RepoFile), some "yy".toList)] :=
  ⟨by decide, by decide,
    (C2_download_files_amended _ 100 10 (by decide)).1,
    (C2_download_files_amended _ 100 10 (by decide)).2 (by decide)⟩

/-! ## Claims about the orchestrator and cache -/

/-- C5: the result cache's invariants. (1) Inserting a key already present
leaves the cache — stored value and eviction order — unchanged. (2) A
successful insert preserves the bound `len(cache) <= cacheMaxSize`. (3)
Inserting a new key into a cache exactly at capacity evicts exactly the
oldest-inserted entry (the front of the insertion-ordered list) and appends
the new entry at the back. Reads (`cacheGet`) are pure and by construction
never modify the cache or its order. -/
theorem C5_cache_invariants (c : Cache) (key : String) (v : SummarizeResponse)
    (maxSize : Int) :
    ((cacheGet key c).isSome → cacheSet key v maxSize c = some c) ∧
    (∀ c', cacheSet key v maxSize c = some c' →
      (c.length : Int) ≤ maxSize → (c'.length : Int) ≤ maxSize) ∧
    (cacheGet key c = none → (c.length : Int) = maxSize → 0 < c.length →
      cacheSet key v maxSize c = some (c.tail ++ [(key, v)])) := by
  refine ⟨?_, ?_, ?_⟩
  · intro h
    simp [cacheSet, h]
  · intro c' hc hl
    unfold cacheSet at hc
    split_ifs at hc with h1 h2
    · cases hc
      exact hl
    · cases c with
      | nil => cases hc
      | cons x rest =>
        cases hc
        simp at hl ⊢
        omega
    · cases hc
      simp at h2 ⊢
      omega
  · intro h1 h2 h3
    unfold cacheSet
    rw [if_neg (by simp [h1]), if_pos (by omega)]
    cases c with
    | nil => simp at h3
    | cons x rest => rfl

/-- C5 witness: re-inserting present key `a` leaves a 1-entry cache unchanged;
inserting `c` into a full 2-entry cache evicts exactly the oldest key `a`. -/
theorem C5_cache_invariants_witness :
    ((cacheGet "a" [("a", ({ summary := "s", technologies := [], struct := "t" } : SummarizeResponse))]).isSome ∧
      cacheSet "a" { summary := "u", technologies := [], struct := "v" } 2
        [("a", { summary := "s", technologies := [], struct := "t" })] =
        some [("a", { summary := "s", technologies := [], struct := "t" })]) ∧
    (cacheGet "c" [("a", ({ summary := "s", technologies := [], struct := "t" } : SummarizeResponse)),
        ("b", { summary := "u", technologies := [], struct := "v" })] = none ∧
      cacheSet "c" { summary := "w", technologies := [], struct := "x" } 2
        [("a", { summary := "s", technologies := [], struct := "t" }),
         ("b", { summary := "u", technologies := [], struct := "v" })] =
        some [("b", { summary := "u", technologies := [], struct := "v" }),
              ("c", { summary := "w", technologies := [], struct := "x" })]) :=
  ⟨⟨by decide,
    (C5_cache_invariants _ "a" _ 2).1 (by decide)⟩,
   ⟨by decide,
    (C5_cache_invariants
      [("a", { summary := "s", technologies := [], struct := "t" }),
       ("b", { summary := "u", technologies := [], struct := "v" })]
      "c" { summary := "w", technologies := [], struct := "x" } 2).2.2
      (by decide) (by decide) (by decide)⟩⟩

/-- C9: on a cache miss, if the tree fetch, the download stage, or the LLM
call (including parsing its response) fails, `summarize` propagates exactly
that error, returns no partial result, and leaves the cache unchanged. -/
theorem C9_error_propagation (st : PipelineStages) (budget p maxSize : Int)
    (owner repo : String) (cache : Cache) (e : String)
    (hmiss : cacheGet (owner ++ "/" ++ repo) cache = none) :
    (st.fetchRepoFiles = Except.error e →
      summarizeService st budget p maxSize owner repo cache = (Except.error e, cache)) ∧
    (∀ files, st.fetchRepoFiles = Except.ok files →
      st.downloadFilesResult files = Except.error e →
      summarizeService st budget p maxSize owner repo cache = (Except.error e, cache)) ∧
    (∀ files files2, st.fetchRepoFiles = Except.ok files →
      st.downloadFilesResult files = Except.ok files2 →
      st.llmSummarize (build_context files2 budget p) = Except.error e →
      summarizeService st budget p maxSize owner repo cache = (Except.error e, cache)) := by
  refine ⟨?_, ?_, ?_⟩
  · intro h
    simp only [summarizeService, hmiss, h]
  · intro files h1 h2
    simp only [summarizeService, hmiss, h1, h2]
  · intro files files2 h1 h2 h3
    simp only [summarizeService, hmiss, h1, h2, h3]

/-- C9 witness: a failing tree fetch against an empty cache propagates its
error and caches nothing. -/
theorem C9_error_propagation_witness :
    cacheGet ("o" ++ "/" ++ "r") [] = none ∧
    summarizeService
      { fetchRepoFiles := Except.error "GitHub API error: 500",
        downloadFilesResult := fun _ => Except.ok [],
        llmSummarize := fun _ => Except.ok {} }
      96000 15000 128 "o" "r" [] = (Except.error "GitHub API error: 500", []) :=
  ⟨rfl,
    (C9_error_propagation
      { fetchRepoFiles := Except.error "GitHub API error: 500",
        downloadFilesResult := fun _ => Except.ok [],
        llmSummarize := fun _ => Except.ok {} }
      96000 15000 128 "o" "r" [] "GitHub API error: 500" rfl).1 rfl⟩

/-- C10: when the LLM response parses but lacks keys, `summarize` does not
fail: the response is built with `raw.get("summary", "")`,
`raw.get("technologies", [])`, `raw.get("structure", "")` — empty defaults for
each missing field — and that defaulted response is both returned and
cached. -/
theorem C10_missing_keys_defaulted (st : PipelineStages)
    (budget p maxSize : Int) (owner repo : String) (cache : Cache)
    (files files2 : List RepoFile) (raw : LLMRaw) (c' : Cache)
    (hmiss : cacheGet (owner ++ "/" ++ repo) cache = none)
    (h1 : st.fetchRepoFiles = Except.ok files)
    (h2 : st.downloadFilesResult files = Except.ok files2)
    (h3 : st.llmSummarize (build_context files2 budget p) = Except.ok raw)
    (h4 : cacheSet (owner ++ "/" ++ repo)
        { summary := raw.summary.getD "",
          technologies := raw.technologies.getD [],
          struct := raw.struct.getD "" } maxSize cache = some c') :
    summarizeService st budget p maxSize owner repo cache =
      (Except.ok { summary := raw.summary.getD "",
                   technologies := raw.technologies.getD [],
                   struct := raw.struct.getD "" }, c') := by
  simp only [summarizeService, hmiss, h1, h2, h3, h4]

/-- C10 witness: an LLM response with all three keys missing yields the fully
defaulted response, returned and inserted into the cache. -/
theorem C10_missing_keys_defaulted_witness :
    summarizeService
      { fetchRepoFiles := Except.ok [],
        downloadFilesResult := fun _ => Except.ok [],
        llmSummarize := fun _ => Except.ok {} }
      96000 15000 128 "o" "r" [] =
      (Except.ok { summary := "", technologies := [], struct := "" },
       [("o" ++ "/" ++ "r",
         { summary := "", technologies := [], struct := "" })]) :=
  C10_missing_keys_defaulted
    { fetchRepoFiles := Except.ok [],
      downloadFilesResult := fun _ => Except.ok [],
      llmSummarize := fun _ => Except.ok {} }
    96000 15000 128 "o" "r" [] [] [] {} _ rfl rfl rfl rfl rfl
